import Mathlib

/-
Verification of the label-placement and view-projection engine of the skyapp
repository (src/core/sky_core.py and src/core/sky_3d.py).

Python floats are modelled as rationals (ℚ) wherever the code only performs
field arithmetic, comparisons, min/max clamping and sorting; trigonometric
code (the projections) is modelled over ℝ.  The matplotlib screen transform
`ax.transData.transform` and the text-bounding-box measurement
`txt.get_window_extent` are external collaborators: they enter the model as
explicit function parameters.
-/

namespace SkyApp

/-- Static magnitude table `MAGS` of sky_core.py (name → apparent magnitude). -/
def MAGS : List (String × ℚ) :=
  [("Sol", -26.7), ("Luna", -12.0), ("Mercurio", 0.0), ("Venus", -4.3),
   ("Marte", 0.5), ("Júpiter", -2.7), ("Saturno", 0.8), ("Urano", 5.7),
   ("Neptuno", 7.8)]

/-- `MAGS.get(name, 1.0)`: look the name up in the magnitude table, default 1.0. -/
def magsGet (name : String) : ℚ :=
  match MAGS.find? (fun e => e.1 = name) with
  | some e => e.2
  | none => 1.0

/-- `np.clip(x, lo, hi)` = `min(hi, max(lo, x))` on scalars. -/
def npClip (x lo hi : ℚ) : ℚ := min hi (max lo x)

/-- `_size_from_mag` of sky_core.py: `np.clip(260 - mag * 32.0, 26, 520)`. -/
def _size_from_mag (mag : ℚ) : ℚ := npClip (260 - mag * 32.0) 26 520

/-- The 3D point-size formula of sky_3d.py `_points_from_altaz`:
`np.clip(22 - mag * 2.8, 6.0, 36.0)`. -/
def size_from_mag_3d (mag : ℚ) : ℚ := npClip (22 - mag * 2.8) 6 36

/-- `_alpha_from_alt` of sky_core.py: `0` for `alt_deg ≤ 0`, otherwise
`np.clip(0.55 + 0.45 * (alt_deg / 90.0), 0.55, 1.0)`. -/
def _alpha_from_alt (alt_deg : ℚ) : ℚ :=
  if alt_deg ≤ 0 then 0 else npClip (0.55 + 0.45 * (alt_deg / 90.0)) 0.55 1.0

/-- C7: `_alpha_from_alt` returns 0 for every `alt_deg ≤ 0` and
`clamp(0.55 + 0.45·(alt/90), 0.55, 1.0)` otherwise; `_alpha_from_alt 0 = 0`,
`_alpha_from_alt 90 = 1`, and for every `alt > 0` the result lies in
`[0.55, 1]`. -/
theorem alpha_from_alt_spec (alt : ℚ) :
    (alt ≤ 0 → _alpha_from_alt alt = 0)
    ∧ (0 < alt → _alpha_from_alt alt = npClip (0.55 + 0.45 * (alt / 90)) 0.55 1)
    ∧ _alpha_from_alt 0 = 0
    ∧ _alpha_from_alt 90 = 1
    ∧ (0 < alt → 0.55 ≤ _alpha_from_alt alt ∧ _alpha_from_alt alt ≤ 1) := by
  refine ⟨fun h => by simp [_alpha_from_alt, h], fun h => ?_, by norm_num [_alpha_from_alt],
    by norm_num [_alpha_from_alt, npClip], fun h => ?_⟩
  · rw [_alpha_from_alt, if_neg (by linarith)]; norm_num
  · rw [_alpha_from_alt, if_neg (by linarith), npClip]
    constructor
    · exact le_min (by norm_num) (le_max_left _ _)
    · exact (min_le_left _ _).trans (by norm_num)

/-- Witness for `alpha_from_alt_spec` at concrete altitudes −3 and 27. -/
theorem alpha_from_alt_spec_witness :
    _alpha_from_alt (-3) = 0 ∧ 0.55 ≤ _alpha_from_alt 27 :=
  ⟨(alpha_from_alt_spec (-3)).1 (by norm_num),
   (((alpha_from_alt_spec 27).2.2.2.2) (by norm_num)).1⟩

/-- C8: both size parameterizations are monotonically non-increasing in the
magnitude and hard-clamped at both ends: the 2D scale to `[26, 520]` with
`_size_from_mag (-30) = 520` and `_size_from_mag 20 = 26`, and the 3D scale to
`[6, 36]` with `size_from_mag_3d (-30) = 36` and `size_from_mag_3d 20 = 6`;
the result never leaves the configured range (in particular it is never
negative). -/
theorem size_from_mag_monotone_clamped (m m1 m2 : ℚ) :
    (m1 < m2 → _size_from_mag m2 ≤ _size_from_mag m1)
    ∧ (m1 < m2 → size_from_mag_3d m2 ≤ size_from_mag_3d m1)
    ∧ _size_from_mag (-30) = 520 ∧ _size_from_mag 20 = 26
    ∧ size_from_mag_3d (-30) = 36 ∧ size_from_mag_3d 20 = 6
    ∧ 26 ≤ _size_from_mag m ∧ _size_from_mag m ≤ 520
    ∧ 6 ≤ size_from_mag_3d m ∧ size_from_mag_3d m ≤ 36 := by
  refine ⟨fun h => ?_, fun h => ?_, by norm_num [_size_from_mag, npClip],
    by norm_num [_size_from_mag, npClip], by norm_num [size_from_mag_3d, npClip],
    by norm_num [size_from_mag_3d, npClip],
    le_min (by norm_num) (le_max_left _ _), min_le_left _ _,
    le_min (by norm_num) (le_max_left _ _), min_le_left _ _⟩
  · exact min_le_min le_rfl (max_le_max le_rfl (by linarith))
  · exact min_le_min le_rfl (max_le_max le_rfl (by linarith))

/-- Witness for `size_from_mag_monotone_clamped` at magnitudes 1 < 2. -/
theorem size_from_mag_monotone_clamped_witness :
    _size_from_mag 2 ≤ _size_from_mag 1 ∧ size_from_mag_3d 2 ≤ size_from_mag_3d 1 :=
  ⟨(size_from_mag_monotone_clamped 0 1 2).1 (by norm_num),
   (size_from_mag_monotone_clamped 0 1 2).2.1 (by norm_num)⟩

/-- A point dict of `make_figure` / `_select_labels`:
keys `name`, `theta`, `r`, `mag`, `alt`. -/
structure LPoint where
  name : String
  theta : ℚ
  r : ℚ
  mag : ℚ
  alt : ℚ
deriving DecidableEq, Repr

/-- Stable insertion of `p` into a key-sorted list: `p` goes before the first
element whose key is ≥ its own, so earlier-inserted equals stay in front. -/
def insertAsc {α : Type} (key : α → ℚ) (p : α) : List α → List α
  | [] => [p]
  | q :: qs => if key p ≤ key q then p :: q :: qs else q :: insertAsc key p qs

/-- Python's `sorted(l, key=key)`: stable ascending sort by a rational key. -/
def sortAsc {α : Type} (key : α → ℚ) : List α → List α
  | [] => []
  | p :: ps => insertAsc key p (sortAsc key ps)

theorem mem_insertAsc {α : Type} (key : α → ℚ) (p : α) (l : List α) (a : α) :
    a ∈ insertAsc key p l ↔ a = p ∨ a ∈ l := by
  induction l with
  | nil => simp [insertAsc]
  | cons q qs ih =>
    rw [insertAsc]
    split
    · simp
    · simp only [List.mem_cons, ih]
      tauto

theorem length_insertAsc {α : Type} (key : α → ℚ) (p : α) (l : List α) :
    (insertAsc key p l).length = l.length + 1 := by
  induction l with
  | nil => rfl
  | cons q qs ih =>
    rw [insertAsc]
    split <;> simp [ih]

theorem mem_sortAsc {α : Type} (key : α → ℚ) (l : List α) (a : α) :
    a ∈ sortAsc key l ↔ a ∈ l := by
  induction l with
  | nil => simp [sortAsc]
  | cons p ps ih => rw [sortAsc, mem_insertAsc, ih]; simp

theorem length_sortAsc {α : Type} (key : α → ℚ) (l : List α) :
    (sortAsc key l).length = l.length := by
  induction l with
  | nil => rfl
  | cons p ps ih => rw [sortAsc, length_insertAsc, ih, List.length_cons]

theorem sorted_insertAsc {α : Type} (key : α → ℚ) (p : α) (l : List α)
    (h : l.Pairwise fun x y => key x ≤ key y) :
    (insertAsc key p l).Pairwise fun x y => key x ≤ key y := by
  induction l with
  | nil => simp [insertAsc]
  | cons q qs ih =>
    rw [insertAsc]
    rcases List.pairwise_cons.1 h with ⟨hq, hqs⟩
    split
    · rename_i hle
      exact List.pairwise_cons.2 ⟨by
        intro b hb
        rcases List.mem_cons.1 hb with rfl | hb
        · exact hle
        · exact hle.trans (hq b hb), h⟩
    · rename_i hgt
      refine List.pairwise_cons.2 ⟨?_, ih hqs⟩
      intro b hb
      rcases (mem_insertAsc key p qs b).1 hb with rfl | hb
      · exact le_of_not_le hgt
      · exact hq b hb

theorem sorted_sortAsc {α : Type} (key : α → ℚ) (l : List α) :
    (sortAsc key l).Pairwise fun x y => key x ≤ key y := by
  induction l with
  | nil => simp [sortAsc]
  | cons p ps ih => exact sorted_insertAsc key p _ ih

/-- Python's slice `l[:n]` for an integer `n`: for `n ≥ 0` the first `n`
elements, for `n < 0` everything up to `max(0, len(l) + n)`. -/
def pySliceTo {α : Type} (l : List α) (n : ℤ) : List α :=
  if 0 ≤ n then l.take n.toNat else l.take ((l.length : ℤ) + n).toNat

/-- Squared Euclidean distance between two screen positions. -/
def distSq (a b : ℚ × ℚ) : ℚ := (a.1 - b.1) ^ 2 + (a.2 - b.2) ^ 2

/-- The inner proximity test of smart mode: the candidate's screen position
`xy` is within `cluster_px` (`(x-tx)**2 + (y-ty)**2 <= cluster_px**2`) of some
already-taken position. -/
def tooClose (cluster_px : ℚ) (xy : ℚ × ℚ) (taken : List (ℚ × ℚ)) : Bool :=
  taken.any fun t => distSq xy t ≤ cluster_px ^ 2

/-- The greedy loop of the `"inteligentes"` branch of `_select_labels`:
walk the magnitude-sorted candidates, skip any candidate too close to an
already-accepted screen position, and stop right after the accepted count
reaches `max_labels` (the count is checked after appending, as in the code).
`n` is the number of labels accepted so far. -/
def smartGo (tr : ℚ × ℚ → ℚ × ℚ) (cluster_px : ℚ) (max_labels : ℤ) :
    List LPoint → List (ℚ × ℚ) → ℕ → List LPoint
  | [], _, _ => []
  | p :: rest, taken, n =>
    if tooClose cluster_px (tr (p.theta, p.r)) taken then
      smartGo tr cluster_px max_labels rest taken n
    else if max_labels ≤ (n : ℤ) + 1 then [p]
    else p :: smartGo tr cluster_px max_labels rest (tr (p.theta, p.r) :: taken) (n + 1)

/-- `_select_labels` of sky_core.py.  The matplotlib screen projection
`ax.transData.transform` enters as the function parameter `tr`. -/
def _select_labels (tr : ℚ × ℚ → ℚ × ℚ) (points : List LPoint)
    (label_mode : String) (max_labels : ℤ) (cluster_px : ℚ) : List LPoint :=
  if label_mode = "todas" then points
  else if label_mode = "top" then pySliceTo (sortAsc (fun p => p.mag) points) max_labels
  else smartGo tr cluster_px max_labels (sortAsc (fun p => p.mag) points) [] 0

theorem distSq_comm (a b : ℚ × ℚ) : distSq a b = distSq b a := by
  unfold distSq; ring

theorem tooClose_eq_false (cluster_px : ℚ) (xy : ℚ × ℚ) (taken : List (ℚ × ℚ)) :
    tooClose cluster_px xy taken = false ↔
      ∀ t ∈ taken, cluster_px ^ 2 < distSq xy t := by
  simp only [tooClose, List.any_eq_false, decide_eq_true_eq]
  exact ⟨fun h t ht => lt_of_not_le (h t ht), fun h t ht => not_le_of_lt (h t ht)⟩

theorem mem_smartGo (tr : ℚ × ℚ → ℚ × ℚ) (cl : ℚ) (ml : ℤ) :
    ∀ (pts : List LPoint) (taken : List (ℚ × ℚ)) (n : ℕ) (q : LPoint),
      q ∈ smartGo tr cl ml pts taken n → q ∈ pts := by
  intro pts
  induction pts with
  | nil => intro taken n q h; simp [smartGo] at h
  | cons p rest ih =>
    intro taken n q h
    rw [smartGo] at h
    split at h
    · exact List.mem_cons_of_mem p (ih taken n q h)
    · split at h
      · simp only [List.mem_singleton] at h
        simp [h]
      · rcases List.mem_cons.1 h with rfl | h
        · exact List.mem_cons_self _ _
        · exact List.mem_cons_of_mem p (ih _ _ q h)

theorem smartGo_sep (tr : ℚ × ℚ → ℚ × ℚ) (cl : ℚ) (ml : ℤ) :
    ∀ (pts : List LPoint) (taken : List (ℚ × ℚ)) (n : ℕ),
      (∀ q ∈ smartGo tr cl ml pts taken n, ∀ t ∈ taken,
        cl ^ 2 < distSq (tr (q.theta, q.r)) t)
      ∧ (smartGo tr cl ml pts taken n).Pairwise
          (fun a b => cl ^ 2 < distSq (tr (a.theta, a.r)) (tr (b.theta, b.r))) := by
  intro pts
  induction pts with
  | nil => intro taken n; simp [smartGo]
  | cons p rest ih =>
    intro taken n
    rw [smartGo]
    split
    · exact ih taken n
    · rename_i hfar
      rw [Bool.not_eq_true] at hfar
      rw [tooClose_eq_false] at hfar
      split
      · refine ⟨?_, List.pairwise_singleton _ _⟩
        intro q hq t ht
        rw [List.mem_singleton] at hq
        subst hq
        exact hfar t ht
      · obtain ⟨ihA, ihB⟩ := ih (tr (p.theta, p.r) :: taken) (n + 1)
        constructor
        · intro q hq t ht
          rcases List.mem_cons.1 hq with rfl | hq
          · exact hfar t ht
          · exact ihA q hq t (List.mem_cons_of_mem _ ht)
        · refine List.pairwise_cons.2 ⟨?_, ihB⟩
          intro b hb
          have := ihA b hb (tr (p.theta, p.r)) (List.mem_cons_self _ _)
          rwa [distSq_comm] at this

theorem smartGo_length (tr : ℚ × ℚ → ℚ × ℚ) (cl : ℚ) (ml : ℤ) :
    ∀ (pts : List LPoint) (taken : List (ℚ × ℚ)) (n : ℕ), (n : ℤ) < ml →
      ((smartGo tr cl ml pts taken n).length : ℤ) ≤ ml - n := by
  intro pts
  induction pts with
  | nil => intro taken n h; simp [smartGo]; omega
  | cons p rest ih =>
    intro taken n h
    rw [smartGo]
    split
    · exact ih taken n h
    · split
      · rename_i hstop
        simp only [List.length_singleton]
        omega
      · rename_i hgo
        rw [not_le] at hgo
        have := ih (tr (p.theta, p.r) :: taken) (n + 1) (by push_cast; omega)
        simp only [List.length_cons]
        push_cast at this ⊢
        omega

/-- C1: smart mode sorts ascending by magnitude, walks the sorted list
greedily, projects each point to screen coordinates via `tr`, and accepts a
point only when its screen position is strictly farther than `cluster_px`
(squared Euclidean test, in pixels) from every accepted position, stopping
once `max_labels` points are accepted; for two points at near-identical
screen positions with magnitudes −4.0 and 1.0 under mode `smart`
(`"inteligentes"`), `cluster_px = 50` and `max_labels = 5`, exactly one label
is returned — the magnitude −4.0 one — for either input order.  In addition,
for every input the accepted labels are pairwise strictly farther apart than
`cluster_px` on screen, and for `max_labels ≥ 1` at most `max_labels` labels
are returned. -/
theorem select_labels_smart_declutter
    (tr : ℚ × ℚ → ℚ × ℚ) (p1 p2 : LPoint)
    (h1 : p1.mag = -4) (h2 : p2.mag = 1)
    (hclose : distSq (tr (p1.theta, p1.r)) (tr (p2.theta, p2.r)) ≤ 50 ^ 2) :
    (_select_labels tr [p1, p2] "inteligentes" 5 50 = [p1]
      ∧ _select_labels tr [p2, p1] "inteligentes" 5 50 = [p1])
    ∧ (∀ (tr2 : ℚ × ℚ → ℚ × ℚ) (pts : List LPoint) (ml : ℤ) (cl : ℚ),
        (_select_labels tr2 pts "inteligentes" ml cl).Pairwise
          (fun a b => cl ^ 2 < distSq (tr2 (a.theta, a.r)) (tr2 (b.theta, b.r))))
    ∧ (∀ (tr2 : ℚ × ℚ → ℚ × ℚ) (pts : List LPoint) (ml : ℤ) (cl : ℚ), 1 ≤ ml →
        ((_select_labels tr2 pts "inteligentes" ml cl).length : ℤ) ≤ ml) := by
  have hsmart : smartGo tr 50 5 [p1, p2] [] 0 = [p1] := by
    rw [smartGo, if_neg (by simp [tooClose]), if_neg (by norm_num), smartGo,
      if_pos ?_, smartGo]
    simp only [tooClose, List.any_cons, List.any_nil, Bool.or_false,
      decide_eq_true_eq]
    rw [distSq_comm]
    exact hclose.trans (by norm_num)
  refine ⟨⟨?_, ?_⟩, fun tr2 pts ml cl => ?_, fun tr2 pts ml cl hml => ?_⟩
  · rw [_select_labels, if_neg (by decide), if_neg (by decide)]
    have hs : sortAsc (fun p : LPoint => p.mag) [p1, p2] = [p1, p2] := by
      simp only [sortAsc, insertAsc]
      rw [if_pos (by rw [h1, h2]; norm_num)]
    rw [hs, hsmart]
  · rw [_select_labels, if_neg (by decide), if_neg (by decide)]
    have hs : sortAsc (fun p : LPoint => p.mag) [p2, p1] = [p1, p2] := by
      simp only [sortAsc, insertAsc]
      rw [if_neg (by rw [h1, h2]; norm_num)]
    rw [hs, hsmart]
  · rw [_select_labels, if_neg (by decide), if_neg (by decide)]
    exact (smartGo_sep tr2 cl ml _ [] 0).2
  · rw [_select_labels, if_neg (by decide), if_neg (by decide)]
    have := smartGo_length tr2 cl ml (sortAsc (fun p => p.mag) pts) [] 0
      (by omega)
    push_cast at this
    omega

/-- Witness for `select_labels_smart_declutter`: the mock screen transform of
test_labels.py (`(theta, r) ↦ (100·theta, 100·r)`) and its two test points,
whose screen positions are 1 px apart horizontally and 10 px vertically. -/
theorem select_labels_smart_declutter_witness :
    _select_labels (fun xy => (xy.1 * 100, xy.2 * 100))
      [⟨"Venus", 1/2, 40, -4, 50⟩, ⟨"Marte", 51/100, 401/10, 1, 49⟩]
      "inteligentes" 5 50
    = [⟨"Venus", 1/2, 40, -4, 50⟩] :=
  ((select_labels_smart_declutter (fun xy => (xy.1 * 100, xy.2 * 100))
    ⟨"Venus", 1/2, 40, -4, 50⟩ ⟨"Marte", 51/100, 401/10, 1, 49⟩
    rfl rfl (by norm_num [distSq])).1).1

/-- Counterexample to C4 as stated: in smart mode with `max_labels = 0` and a
non-empty input, `_select_labels` returns a non-empty result (the loop
appends the first candidate before testing the `len(labeled) >= max_labels`
break). -/
theorem select_labels_maxzero_counterexample :
    _select_labels (fun xy => xy) [⟨"Venus", 1/2, 40, -4, 50⟩]
      "inteligentes" 0 50 ≠ [] := by
  rw [_select_labels, if_neg (by decide), if_neg (by decide)]
  rw [show sortAsc (fun p : LPoint => p.mag) [⟨"Venus", 1/2, 40, -4, 50⟩]
      = [⟨"Venus", 1/2, 40, -4, 50⟩] from rfl]
  rw [smartGo, if_neg (by simp [tooClose]), if_pos (by norm_num)]
  simp

/-- C4 as amended: empty input gives an empty result in every mode; `top`
with `max_labels = 0` gives an empty result; but for `max_labels ≤ 0` the
claim fails in general: smart mode on a non-empty input returns exactly one
label, and `top` with `max_labels < 0` follows Python slice semantics,
returning the sorted list minus its last `|max_labels|` elements (length
`pts.length - |max_labels|`, truncated at 0). -/
theorem select_labels_edge_cases
    (tr : ℚ × ℚ → ℚ × ℚ) (pts : List LPoint) (mode : String) (ml : ℤ) (cl : ℚ) :
    _select_labels tr [] mode ml cl = []
    ∧ _select_labels tr pts "top" 0 cl = []
    ∧ (ml ≤ 0 → pts ≠ [] →
        (_select_labels tr pts "inteligentes" ml cl).length = 1)
    ∧ (ml < 0 →
        (_select_labels tr pts "top" ml cl).length = pts.length - (-ml).toNat) := by
  refine ⟨?_, ?_, fun hml hne => ?_, fun hml => ?_⟩
  · rw [_select_labels]
    split
    · rfl
    · split
      · simp [sortAsc, pySliceTo]
      · rw [sortAsc, smartGo]
  · rw [_select_labels, if_neg (by decide), if_pos rfl]
    simp [pySliceTo]
  · rw [_select_labels, if_neg (by decide), if_neg (by decide)]
    have hlen : (sortAsc (fun p : LPoint => p.mag) pts).length = pts.length :=
      length_sortAsc _ _
    rcases hs : sortAsc (fun p : LPoint => p.mag) pts with _ | ⟨q, qs⟩
    · rw [hs] at hlen
      exact absurd (List.length_eq_zero.1 hlen.symm) hne
    · rw [smartGo, if_neg (by simp [tooClose]), if_pos (by push_cast; omega)]
      rfl
  · rw [_select_labels, if_neg (by decide), if_pos rfl]
    rw [pySliceTo, if_neg (by omega), List.length_take, length_sortAsc]
    omega

/-- Witness for `select_labels_edge_cases`: concrete empty-input, `top 0`,
`smart −2` and `top −1` instances. -/
theorem select_labels_edge_cases_witness :
    _select_labels (fun xy => xy) [] "todas" 4 20 = []
    ∧ (_select_labels (fun xy => xy) [⟨"Venus", 1/2, 40, -4, 50⟩]
        "inteligentes" (-2) 50).length = 1
    ∧ (_select_labels (fun xy => xy)
        [⟨"Venus", 1/2, 40, -4, 50⟩, ⟨"Marte", 1, 30, 1, 60⟩]
        "top" (-1) 20).length = 1 :=
  ⟨(select_labels_edge_cases (fun xy => xy) [] "todas" 4 20).1,
   (select_labels_edge_cases (fun xy => xy) [⟨"Venus", 1/2, 40, -4, 50⟩]
      "inteligentes" (-2) 50).2.2.1 (by norm_num) (by simp),
   ((select_labels_edge_cases (fun xy => xy)
      [⟨"Venus", 1/2, 40, -4, 50⟩, ⟨"Marte", 1, 30, 1, 60⟩]
      "top" (-1) 20).2.2.2 (by norm_num)).trans (by norm_num)⟩

/-- An axis-aligned bounding box (matplotlib `Bbox`) with rational extents. -/
structure BboxQ where
  x0 : ℚ
  y0 : ℚ
  x1 : ℚ
  y1 : ℚ
deriving DecidableEq, Repr

/-- `_overlap_area` of sky_core.py: rectangle-intersection area, 0 when the
intersection is empty or degenerate. -/
def _overlap_area (a b : BboxQ) : ℚ :=
  if min a.x1 b.x1 ≤ max a.x0 b.x0 ∨ min a.y1 b.y1 ≤ max a.y0 b.y0 then 0
  else (min a.x1 b.x1 - max a.x0 b.x0) * (min a.y1 b.y1 - max a.y0 b.y0)

/-- `_inflate_bbox` of sky_core.py: grow a box by `pad_px` on all four sides. -/
def _inflate_bbox (bb : BboxQ) (pad_px : ℚ) : BboxQ :=
  ⟨bb.x0 - pad_px, bb.y0 - pad_px, bb.x1 + pad_px, bb.y1 + pad_px⟩

/-- The fixed ordered candidate-offset list of `_place_labels_non_overlapping`. -/
def candidates : List (ℤ × ℤ) :=
  [(12, 8), (12, -8), (-12, 8), (-12, -8),
   (0, 12), (0, -12),
   (18, 0), (-18, 0),
   (18, 10), (18, -10), (-18, 10), (-18, -10)]

/-- The `score` accumulation of the placement loop: total overlap area of a
box against every already-placed box. -/
def totalOverlap (bb : BboxQ) (placed : List BboxQ) : ℚ :=
  (placed.map fun prev => _overlap_area bb prev).sum

/-- The inner candidate loop of `_place_labels_non_overlapping`: keep the
best (strictly lower) score seen so far and stop as soon as the tracked best
score is exactly zero. -/
def bestLoop (f : ℤ × ℤ → ℚ) :
    List (ℤ × ℤ) → Option ((ℤ × ℤ) × ℚ) → Option ((ℤ × ℤ) × ℚ)
  | [], best => best
  | c :: rest, best =>
    let best' :=
      match best with
      | none => (c, f c)
      | some (c0, s0) => if f c < s0 then (c, f c) else (c0, s0)
    if best'.2 = 0 then some best' else bestLoop f rest (some best')

/-- Score of one candidate offset for label `p` against the placed boxes:
inflate the measured bounding box by the padding and sum the overlaps.  The
text-extent measurement (`annotate` + `get_window_extent`) is the external
function parameter `bboxOf`. -/
def scoreOf (bboxOf : LPoint → ℤ × ℤ → BboxQ) (pad : ℚ) (placed : List BboxQ)
    (p : LPoint) (c : ℤ × ℤ) : ℚ :=
  totalOverlap (_inflate_bbox (bboxOf p c) pad) placed

/-- The outer loop of `_place_labels_non_overlapping`: pick each label's best
candidate, commit it, and append its inflated box to the placed list. -/
def placeGo (bboxOf : LPoint → ℤ × ℤ → BboxQ) (pad : ℚ) :
    List LPoint → List BboxQ → List (LPoint × (ℤ × ℤ))
  | [], _ => []
  | p :: rest, placed =>
    match bestLoop (scoreOf bboxOf pad placed p) candidates none with
    | none => placeGo bboxOf pad rest placed
    | some (c, _) =>
      (p, c) :: placeGo bboxOf pad rest (placed ++ [_inflate_bbox (bboxOf p c) pad])

/-- `_place_labels_non_overlapping` of sky_core.py, returning each label's
committed offset. -/
def _place_labels_non_overlapping (bboxOf : LPoint → ℤ × ℤ → BboxQ) (pad : ℚ)
    (label_points : List LPoint) : List (LPoint × (ℤ × ℤ)) :=
  placeGo bboxOf pad label_points []

/-- Spec-side candidate choice, following the spec's words: the first
candidate achieving exactly zero overlap wins; otherwise the candidate with
the lowest total overlap seen so far (the earliest minimizer) is kept. -/
def specChoose (f : ℤ × ℤ → ℚ) (cs : List (ℤ × ℤ)) : Option (ℤ × ℤ) :=
  match cs.find? (fun c => decide (f c = 0)) with
  | some z => some z
  | none =>
    match cs with
    | [] => none
    | c :: rest => some (rest.foldl (fun b c2 => if f c2 < f b then c2 else b) c)

/-- Spec-side placement, following the spec's words: every selected label is
placed exactly once, its chosen candidate is `specChoose`, and its inflated
box is appended even when the overlap is nonzero. -/
def specPlaceGo (bboxOf : LPoint → ℤ × ℤ → BboxQ) (pad : ℚ) :
    List LPoint → List BboxQ → List (LPoint × (ℤ × ℤ))
  | [], _ => []
  | p :: rest, placed =>
    match specChoose (scoreOf bboxOf pad placed p) candidates with
    | none => specPlaceGo bboxOf pad rest placed
    | some c =>
      (p, c) :: specPlaceGo bboxOf pad rest (placed ++ [_inflate_bbox (bboxOf p c) pad])

/-- Spec-side entry point for label placement. -/
def spec_place_labels (bboxOf : LPoint → ℤ × ℤ → BboxQ) (pad : ℚ)
    (label_points : List LPoint) : List (LPoint × (ℤ × ℤ)) :=
  specPlaceGo bboxOf pad label_points []

theorem overlap_area_nonneg (a b : BboxQ) : 0 ≤ _overlap_area a b := by
  rw [_overlap_area]
  split
  · exact le_refl 0
  · rename_i h
    push_neg at h
    exact mul_nonneg (by linarith [h.1]) (by linarith [h.2])

theorem totalOverlap_nonneg (bb : BboxQ) (placed : List BboxQ) :
    0 ≤ totalOverlap bb placed := by
  refine List.sum_nonneg ?_
  intro x hx
  rcases List.mem_map.1 hx with ⟨prev, _, rfl⟩
  exact overlap_area_nonneg _ _

theorem scoreOf_nonneg (bboxOf : LPoint → ℤ × ℤ → BboxQ) (pad : ℚ)
    (placed : List BboxQ) (p : LPoint) (c : ℤ × ℤ) :
    0 ≤ scoreOf bboxOf pad placed p c :=
  totalOverlap_nonneg _ _

theorem bestLoop_go (f : ℤ × ℤ → ℚ) (hf : ∀ c, 0 ≤ f c) :
    ∀ (cs : List (ℤ × ℤ)) (b : ℤ × ℤ), 0 < f b →
      bestLoop f cs (some (b, f b)) =
        match cs.find? (fun c => decide (f c = 0)) with
        | some z => some (z, f z)
        | none =>
          some (cs.foldl (fun x c2 => if f c2 < f x then c2 else x) b,
                f (cs.foldl (fun x c2 => if f c2 < f x then c2 else x) b)) := by
  intro cs
  induction cs with
  | nil => intro b hb; simp [bestLoop]
  | cons c rest ih =>
    intro b hb
    rw [bestLoop]
    by_cases hc0 : f c = 0
    · have hlt : f c < f b := by rw [hc0]; exact hb
      have hfind : List.find? (fun c2 => decide (f c2 = 0)) (c :: rest) = some c :=
        List.find?_cons_of_pos _ (by simp [hc0])
      simp only [hlt, if_true]
      rw [if_pos hc0, hfind]
    · have hcpos : 0 < f c := lt_of_le_of_ne (hf c) (Ne.symm hc0)
      have hpair : (if f c < f b then (c, f c) else (b, f b))
          = ((if f c < f b then c else b), f (if f c < f b then c else b)) := by
        by_cases hlt : f c < f b <;> simp [hlt]
      have hb' : 0 < f (if f c < f b then c else b) := by
        by_cases hlt : f c < f b <;> simp [hlt, hcpos, hb]
      have hfind : List.find? (fun c2 => decide (f c2 = 0)) (c :: rest)
          = List.find? (fun c2 => decide (f c2 = 0)) rest :=
        List.find?_cons_of_neg _ (by simp [hc0])
      simp only [hpair]
      rw [if_neg (by exact ne_of_gt hb')]
      rw [ih _ hb', hfind, List.foldl_cons]

theorem bestLoop_none (f : ℤ × ℤ → ℚ) (hf : ∀ c, 0 ≤ f c) (cs : List (ℤ × ℤ)) :
    bestLoop f cs none = (specChoose f cs).map (fun c => (c, f c)) := by
  cases cs with
  | nil => simp [bestLoop, specChoose]
  | cons c rest =>
    rw [bestLoop]
    by_cases hc0 : f c = 0
    · have hfind : List.find? (fun c2 => decide (f c2 = 0)) (c :: rest) = some c :=
        List.find?_cons_of_pos _ (by simp [hc0])
      rw [if_pos hc0]
      simp [specChoose, hfind]
    · have hcpos : 0 < f c := lt_of_le_of_ne (hf c) (Ne.symm hc0)
      have hfind : List.find? (fun c2 => decide (f c2 = 0)) (c :: rest)
          = List.find? (fun c2 => decide (f c2 = 0)) rest :=
        List.find?_cons_of_neg _ (by simp [hc0])
      rw [if_neg (by exact ne_of_gt hcpos)]
      rw [bestLoop_go f hf rest c hcpos]
      cases hfind2 : List.find? (fun c2 => decide (f c2 = 0)) rest with
      | some z => simp [specChoose, hfind, hfind2]
      | none => simp [specChoose, hfind, hfind2]

theorem specChoose_candidates_isSome (f : ℤ × ℤ → ℚ) :
    (specChoose f candidates).isSome := by
  simp only [specChoose]
  cases hfind : List.find? (fun c => decide (f c = 0)) candidates with
  | some z => simp [hfind]
  | none => simp [hfind, candidates]

theorem placeGo_eq_spec (bboxOf : LPoint → ℤ × ℤ → BboxQ) (pad : ℚ) :
    ∀ (pts : List LPoint) (placed : List BboxQ),
      placeGo bboxOf pad pts placed = specPlaceGo bboxOf pad pts placed := by
  intro pts
  induction pts with
  | nil => intro placed; rfl
  | cons p rest ih =>
    intro placed
    rw [placeGo, specPlaceGo,
      bestLoop_none _ (scoreOf_nonneg bboxOf pad placed p) candidates]
    cases h : specChoose (scoreOf bboxOf pad placed p) candidates with
    | none => simp [ih]
    | some c => simp [ih]

theorem placeGo_map_fst (bboxOf : LPoint → ℤ × ℤ → BboxQ) (pad : ℚ) :
    ∀ (pts : List LPoint) (placed : List BboxQ),
      (placeGo bboxOf pad pts placed).map Prod.fst = pts := by
  intro pts
  induction pts with
  | nil => intro placed; rfl
  | cons p rest ih =>
    intro placed
    rw [placeGo, bestLoop_none _ (scoreOf_nonneg bboxOf pad placed p) candidates]
    obtain ⟨c, hc⟩ := Option.isSome_iff_exists.1
      (specChoose_candidates_isSome (scoreOf bboxOf pad placed p))
    rw [hc]
    simp [ih]

/-- C2: for every bounding-box measurement and every input list of selected
labels, `_place_labels_non_overlapping` places every label exactly once, in
order, never dropping one (the committed labels are exactly the input), and
it equals the spec-side description: per label, each fixed candidate offset
is scored by the summed rectangle-intersection area of its padding-inflated
box against every already-placed inflated box, the earliest candidate with
the strictly lowest score is kept, the search stops at the first exactly-zero
candidate, and the best candidate is committed (even with nonzero overlap)
with its inflated box appended to the placed list. -/
theorem place_labels_total_and_greedy
    (bboxOf : LPoint → ℤ × ℤ → BboxQ) (pad : ℚ) (pts : List LPoint) :
    (_place_labels_non_overlapping bboxOf pad pts).map Prod.fst = pts
    ∧ _place_labels_non_overlapping bboxOf pad pts
        = spec_place_labels bboxOf pad pts :=
  ⟨placeGo_map_fst bboxOf pad pts [], placeGo_eq_spec bboxOf pad pts []⟩

/-- One entry of the `altaz_dict` input of `make_figure`: the body name with
the altitude in degrees (`c.alt.deg`) and the azimuth in radians
(`c.az.rad`), as the astropy coordinate exposes them. -/
structure AltAzInput where
  name : String
  altDeg : ℚ
  azRad : ℚ
deriving DecidableEq, Repr

/-- The visible-point list built at the top of `make_figure`: objects with
`alt <= 0` are skipped; the rest become `{name, theta = az.rad,
r = 90 - alt, mag = MAGS.get(name, 1.0), alt}`. -/
def make_figure_points (input : List AltAzInput) : List LPoint :=
  input.filterMap fun c =>
    if c.altDeg ≤ 0 then none
    else some ⟨c.name, c.azRad, 90 - c.altDeg, magsGet c.name, c.altDeg⟩

/-- `min(p["alt"] for p in points)` for a non-empty list (the sentinel for
`[]` is never used: the auto-zoom branch requires a non-empty list). -/
def altMin : List LPoint → ℚ
  | [] => 90
  | p :: ps => ps.foldl (fun m q => min m q.alt) p.alt

/-- The auto-zoom / clamping block of `make_figure`: when auto-zoom is on and
visible points exist, `rmax = max(18, min(90, (90 - alt_min) + margin))`,
else the manual `rmax`; in both cases followed by `np.clip(rmax, 18, 90)`. -/
def make_figure_rmax (auto_zoom : Bool) (rmax zoom_margin_deg : ℚ)
    (points : List LPoint) : ℚ :=
  npClip
    (if auto_zoom && !points.isEmpty then
      max 18 (min 90 ((90 - altMin points) + zoom_margin_deg))
    else rmax)
    18 90

/-- Counterexample to C3 as stated: with minimum visible altitude 10° and
`margin_deg = 6`, the code returns `min(90, (90 − 10) + 6) = 86`, not the 90
the claim asserts. -/
theorem auto_zoom_margin_counterexample :
    make_figure_rmax true 90 6 [⟨"Venus", 0, 80, -4.3, 10⟩] ≠ 90 := by
  norm_num [make_figure_rmax, altMin, npClip, min_def, max_def]

/-- C3 as amended: if auto-zoom is disabled or no visible points exist, the
result is the manual `r_max` clamped to `[18, 90]`; if enabled with visible
points, it is `min(90, (90 − alt_min) + margin_deg)` clamped to `[18, 90]`;
with minimum altitude 10° and `margin_deg = 6` the result is 86 (not 90 —
the claim's arithmetic slip), and with minimum altitude 70° it is 26. -/
theorem auto_zoom_clamped (manual margin : ℚ) (points : List LPoint)
    (auto : Bool) (p : LPoint) (ps : List LPoint) :
    make_figure_rmax false manual margin points = npClip manual 18 90
    ∧ make_figure_rmax auto manual margin [] = npClip manual 18 90
    ∧ make_figure_rmax true manual margin (p :: ps)
        = npClip (min 90 ((90 - altMin (p :: ps)) + margin)) 18 90
    ∧ make_figure_rmax true 90 6 [⟨"Venus", 0, 80, -4.3, 10⟩] = 86
    ∧ make_figure_rmax true 90 6 [⟨"Júpiter", 0, 20, -2.7, 70⟩] = 26 := by
  refine ⟨by simp [make_figure_rmax], by simp [make_figure_rmax], ?_,
    by norm_num [make_figure_rmax, altMin, npClip, min_def, max_def],
    by norm_num [make_figure_rmax, altMin, npClip, min_def, max_def]⟩
  rw [make_figure_rmax]
  have hcond : (true && !(p :: ps).isEmpty) = true := by simp
  rw [if_pos hcond, npClip, npClip, ← max_assoc, max_self]

/-- A `SkyObject` record of sky_core.py (`visible` is derived as `alt > 0`). -/
structure SkyObject where
  nombre : String
  alt_deg : ℚ
  az_deg : ℚ
  mag : ℚ
  visible : Bool
deriving DecidableEq, Repr

/-- The table construction of `compute_altaz`: one record per entry of the
alt/az mapping (name, alt_deg, az_deg), magnitude from `MAGS` with default
1.0, `visible = alt > 0`, finally `table.sort(key=alt_deg, reverse=True)` —
a stable descending sort, modelled as the stable ascending sort by the
negated key. -/
def compute_altaz_table (entries : List (String × ℚ × ℚ)) : List SkyObject :=
  sortAsc (fun o => -o.alt_deg)
    (entries.map fun e => ⟨e.1, e.2.1, e.2.2, magsGet e.1, decide (0 < e.2.1)⟩)

/-- C10: for every input mapping, in every iteration order, the table
returned by `compute_altaz` is sorted in non-increasing order of `alt_deg`
(highest object first). -/
theorem compute_altaz_sorted (entries : List (String × ℚ × ℚ)) :
    (compute_altaz_table entries).Pairwise fun a b => b.alt_deg ≤ a.alt_deg := by
  have h := sorted_sortAsc (fun o : SkyObject => -o.alt_deg)
    (entries.map fun e => ⟨e.1, e.2.1, e.2.2, magsGet e.1, decide (0 < e.2.1)⟩)
  exact h.imp fun hab => by linarith

/-- `np.deg2rad` / astropy's `.rad`: degrees to radians. -/
noncomputable def deg2rad (d : ℝ) : ℝ := d * (Real.pi / 180)

/-- The 2D polar projection of `make_figure`: `theta = az.rad`
(azimuth converted to radians), `r = 90 - alt`. -/
noncomputable def project_polar2d (altDeg azDeg : ℝ) : ℝ × ℝ :=
  (deg2rad azDeg, 90 - altDeg)

/-- The 3D unit-hemisphere projection of sky_3d.py `_points_from_altaz`:
`x = cos(alt)·sin(az)` (East), `y = cos(alt)·cos(az)` (North),
`z = sin(alt)` (Up), radius 1. -/
noncomputable def project_hemisphere3d (altDeg azDeg : ℝ) : ℝ × ℝ × ℝ :=
  (Real.cos (deg2rad altDeg) * Real.sin (deg2rad azDeg),
   Real.cos (deg2rad altDeg) * Real.cos (deg2rad azDeg),
   Real.sin (deg2rad altDeg))

/-- One entry of the `altaz_dict` input of sky_3d.py `_points_from_altaz`:
name, altitude and azimuth in degrees (`c.alt.deg`, `c.az.deg`). -/
structure AltAz3DInput where
  name : String
  altDeg : ℝ
  azDeg : ℝ

/-- One 3D point dict produced by sky_3d.py `_points_from_altaz`. -/
structure Point3D where
  name : String
  x : ℝ
  y : ℝ
  z : ℝ
  mag : ℚ
  size : ℚ
  alt : ℝ
  az : ℝ

/-- `_points_from_altaz` of sky_3d.py: skip objects with `alt <= 0`, project
the rest onto the unit hemisphere and attach magnitude and clamped size. -/
noncomputable def _points_from_altaz (input : List AltAz3DInput) : List Point3D :=
  input.filterMap fun c =>
    if c.altDeg ≤ 0 then none
    else some ⟨c.name,
      Real.cos (deg2rad c.altDeg) * Real.sin (deg2rad c.azDeg),
      Real.cos (deg2rad c.altDeg) * Real.cos (deg2rad c.azDeg),
      Real.sin (deg2rad c.altDeg),
      magsGet c.name, size_from_mag_3d (magsGet c.name), c.altDeg, c.azDeg⟩

theorem sqrt_two_bounds : (1.414 : ℝ) < Real.sqrt 2 ∧ Real.sqrt 2 < 1.4143 := by
  have h : Real.sqrt 2 ^ 2 = 2 := Real.sq_sqrt (by norm_num)
  have hnn := Real.sqrt_nonneg 2
  constructor <;> nlinarith

/-- C5: the 2D polar projection maps (45°, 90°) to `r = 45` exactly, and the
3D unit-hemisphere projection maps it to `x = cos 45° ≈ 0.707`, `y = 0`
(within 1e-9) and `z = sin 45° ≈ 0.707`, each within 0.001. -/
theorem projection_roundtrip_east45 :
    (project_polar2d 45 90).2 = 45
    ∧ |(project_hemisphere3d 45 90).1 - 0.707| < 1/1000
    ∧ |(project_hemisphere3d 45 90).2.1| < 1/1000000000
    ∧ |(project_hemisphere3d 45 90).2.2 - 0.707| < 1/1000 := by
  have h45 : deg2rad 45 = Real.pi / 4 := by rw [deg2rad]; ring
  have h90 : deg2rad 90 = Real.pi / 2 := by rw [deg2rad]; ring
  have hx : (project_hemisphere3d 45 90).1 = Real.sqrt 2 / 2 := by
    rw [project_hemisphere3d]
    simp [h45, h90, Real.cos_pi_div_four]
  have hy : (project_hemisphere3d 45 90).2.1 = 0 := by
    rw [project_hemisphere3d]
    simp [h45, h90, Real.cos_pi_div_two]
  have hz : (project_hemisphere3d 45 90).2.2 = Real.sqrt 2 / 2 := by
    rw [project_hemisphere3d]
    simp [h45, Real.sin_pi_div_four]
  obtain ⟨hlo, hhi⟩ := sqrt_two_bounds
  refine ⟨by rw [project_polar2d]; norm_num, ?_, ?_, ?_⟩
  · rw [hx, abs_lt]; constructor <;> nlinarith
  · rw [hy]; norm_num
  · rw [hz, abs_lt]; constructor <;> nlinarith

/-- Counterexample to C6 as stated: the 2D theta coordinates of azimuth 0 and
azimuth 360 differ by 2π, far more than the claimed 1e-9 tolerance (the two
coordinate pairs denote the same point of the polar plane, but are not equal
as numbers). -/
theorem wrap_theta_counterexample :
    ¬ |(project_polar2d 45 0).1 - (project_polar2d 45 360).1| ≤ 1/1000000000 := by
  have h0 : (project_polar2d 45 0).1 = 0 := by
    rw [project_polar2d, deg2rad]; ring
  have h360 : (project_polar2d 45 360).1 = 2 * Real.pi := by
    rw [project_polar2d, deg2rad]; ring
  rw [h0, h360, zero_sub, abs_neg, abs_of_nonneg (by positivity)]
  have := Real.pi_gt_three
  intro h
  nlinarith

/-- C6 as amended: for every fixed altitude, azimuth 0 and azimuth 360
project to exactly equal 3D unit-hemisphere coordinates and to the same 2D
polar point — equal radius, and theta values that differ by exactly 2π and
therefore have identical cosine and sine (the same angular position); the 2D
theta numbers themselves are not equal. -/
theorem wrap_consistency (alt : ℝ) :
    project_hemisphere3d alt 0 = project_hemisphere3d alt 360
    ∧ (project_polar2d alt 0).2 = (project_polar2d alt 360).2
    ∧ (project_polar2d alt 360).1 = (project_polar2d alt 0).1 + 2 * Real.pi
    ∧ Real.cos (project_polar2d alt 0).1 = Real.cos (project_polar2d alt 360).1
    ∧ Real.sin (project_polar2d alt 0).1 = Real.sin (project_polar2d alt 360).1 := by
  have h0 : deg2rad 0 = 0 := by rw [deg2rad]; ring
  have h360 : deg2rad 360 = 2 * Real.pi := by rw [deg2rad]; ring
  refine ⟨?_, rfl, ?_, ?_, ?_⟩
  · rw [project_hemisphere3d, project_hemisphere3d, h0, h360]
    rw [Real.sin_zero, Real.cos_zero, Real.sin_two_pi, Real.cos_two_pi]
  · rw [project_polar2d, project_polar2d, h0, h360]
    norm_num
  · rw [project_polar2d, project_polar2d, h0, h360]
    rw [Real.cos_zero, Real.cos_two_pi]
  · rw [project_polar2d, project_polar2d, h0, h360]
    rw [Real.sin_zero, Real.sin_two_pi]

theorem mem_select_labels (tr : ℚ × ℚ → ℚ × ℚ) (pts : List LPoint)
    (mode : String) (ml : ℤ) (cl : ℚ) (q : LPoint) :
    q ∈ _select_labels tr pts mode ml cl → q ∈ pts := by
  rw [_select_labels]
  split
  · exact id
  · split
    · intro h
      have h2 : q ∈ sortAsc (fun p : LPoint => p.mag) pts := by
        rw [pySliceTo] at h
        split at h
        · exact List.take_subset _ _ h
        · exact List.take_subset _ _ h
      exact (mem_sortAsc _ _ _).1 h2
    · intro h
      exact (mem_sortAsc _ _ _).1 (mem_smartGo tr cl ml _ [] 0 q h)

theorem make_figure_points_pos (input : List AltAzInput) :
    ∀ p ∈ make_figure_points input, 0 < p.alt := by
  intro p hp
  rcases List.mem_filterMap.1 hp with ⟨c, _, hm⟩
  by_cases h : c.altDeg ≤ 0
  · rw [if_pos h] at hm
    cases hm
  · rw [if_neg h] at hm
    cases hm
    exact not_le.1 h

/-- C9: objects with `alt ≤ 0` are excluded before every downstream step —
all 2D-projected points (which carry the size/alpha encodings and are the
only label candidates) have `alt > 0`; the 2D point list, and hence the
label selection and the auto-zoom result, are unchanged when the
below-horizon entries are dropped from the input beforehand; the 3D point
list likewise contains only `alt > 0` objects and ignores below-horizon
entries. -/
theorem horizon_cutoff_invariant (input : List AltAzInput)
    (input3 : List AltAz3DInput) (tr : ℚ × ℚ → ℚ × ℚ) (mode : String)
    (ml : ℤ) (cl : ℚ) (auto : Bool) (manual margin : ℚ) :
    ((make_figure_points input).all fun p => decide (0 < p.alt)) = true
    ∧ make_figure_points input
        = make_figure_points (input.filter fun c => decide (0 < c.altDeg))
    ∧ ((_points_from_altaz input3).all fun p => decide ((0:ℝ) < p.alt)) = true
    ∧ _points_from_altaz input3
        = _points_from_altaz (input3.filter fun c => decide ((0:ℝ) < c.altDeg))
    ∧ ((_select_labels tr (make_figure_points input) mode ml cl).all
        fun p => decide (0 < p.alt)) = true
    ∧ make_figure_rmax auto manual margin (make_figure_points input)
        = make_figure_rmax auto manual margin
            (make_figure_points (input.filter fun c => decide (0 < c.altDeg))) := by
  have h2 : make_figure_points input
      = make_figure_points (input.filter fun c => decide (0 < c.altDeg)) := by
    induction input with
    | nil => rfl
    | cons c cs ih =>
      rw [List.filter_cons]
      by_cases h : 0 < c.altDeg
      · simp only [h, decide_True, if_true]
        rw [make_figure_points, make_figure_points, List.filterMap_cons,
          List.filterMap_cons]
        rw [if_neg (not_le.2 h)]
        exact congrArg _ ih
      · simp only [h, decide_False, if_false]
        rw [make_figure_points, List.filterMap_cons, if_pos (not_lt.1 h)]
        exact ih
  have h4 : _points_from_altaz input3
      = _points_from_altaz (input3.filter fun c => decide ((0:ℝ) < c.altDeg)) := by
    induction input3 with
    | nil => rfl
    | cons c cs ih =>
      rw [List.filter_cons]
      by_cases h : (0:ℝ) < c.altDeg
      · rw [if_pos (by simpa using h)]
        rw [_points_from_altaz, _points_from_altaz, List.filterMap_cons,
          List.filterMap_cons]
        rw [if_neg (not_le.2 h)]
        exact congrArg _ ih
      · rw [if_neg (by simpa using h)]
        rw [_points_from_altaz, List.filterMap_cons, if_pos (not_lt.1 h)]
        exact ih
  refine ⟨?_, h2, ?_, h4, ?_, by rw [h2]⟩
  · simp only [List.all_eq_true, decide_eq_true_eq]
    exact make_figure_points_pos input
  · simp only [List.all_eq_true, decide_eq_true_eq]
    intro p hp
    rcases List.mem_filterMap.1 hp with ⟨c, _, hm⟩
    by_cases h : c.altDeg ≤ 0
    · rw [if_pos h] at hm
      cases hm
    · rw [if_neg h] at hm
      cases hm
      exact not_le.1 h
  · simp only [List.all_eq_true, decide_eq_true_eq]
    intro p hp
    exact make_figure_points_pos input p
      (mem_select_labels tr _ mode ml cl p hp)

end SkyApp
